import Mathlib

/-!
A verification development for the BeatFinder recommendation engine
(`recommendation_engine.py` and `config.py`).  Python strings are modelled
as `String`/`List Char`, machine integers as `Nat`/`Int`, floats as `ℚ`,
Python dictionaries as association lists, and fallible operations return
`Option`/`Except`.  Each definition is a direct translation of the
corresponding source function.
-/

namespace Beatfinder

/-! ## Artist-name normalisation (`RecommendationEngine._normalise_artist_name`)

Python: `normalised = name.lower()`, then `.replace('"', '').replace("'", '')
.replace('‘', '').replace('’', '')`, then `' '.join(normalised.split())`.
-/

/-- Whitespace characters recognised by Python `str.split()` / `str.strip()`
(restricted to the ASCII whitespace set). -/
def isWsChar (c : Char) : Bool :=
  c == ' ' || c == '\t' || c == '\n' || c == '\r' || c == '\x0b' || c == '\x0c'

/-- The quote characters removed by `_normalise_artist_name`: straight double
quote, straight apostrophe, and the two curly single quotes U+2018/U+2019. -/
def isQuoteChar (c : Char) : Bool :=
  c == '"' || c == '\'' || c == '‘' || c == '’'

/-- `name.lower()` (ASCII case folding, as in `Char.toLower`). -/
def lowerChars (s : List Char) : List Char := s.map Char.toLower

/-- Python `str.lower()` on a string value. -/
def pyLower (s : String) : String := ⟨lowerChars s.data⟩

/-- The chained `.replace(q, '')` calls: removing single characters is
filtering them out. -/
def stripQuotes (s : List Char) : List Char := s.filter (fun c => !isQuoteChar c)

/-- Python `str.split()` (no argument): split on runs of whitespace,
discarding empty pieces. -/
def wordsOf : List Char → List (List Char)
  | [] => []
  | [c] => if isWsChar c then [] else [[c]]
  | c :: d :: rest =>
    if isWsChar c then wordsOf (d :: rest)
    else if isWsChar d then [c] :: wordsOf (d :: rest)
    else
      match wordsOf (d :: rest) with
      | [] => [[c]]
      | w :: ws => (c :: w) :: ws

/-- `' '.join(words)`. -/
def joinWords : List (List Char) → List Char
  | [] => []
  | [w] => w
  | w :: ws => w ++ [' '] ++ joinWords ws

/-- `RecommendationEngine._normalise_artist_name`, on character lists. -/
def normaliseL (s : List Char) : List Char :=
  joinWords (wordsOf (stripQuotes (lowerChars s)))

/-- `RecommendationEngine._normalise_artist_name`. -/
def normalise_artist_name (name : String) : String :=
  ⟨normaliseL name.data⟩

/-! ## Library statistics and classification (`RecommendationEngine.__init__`,
`get_loved_artists`) -/

/-- The per-artist statistics record consumed by the engine (one value of the
`library_stats` dictionary).  `rating` is the 0–100 scale (stars × 20);
`last_played` is an optional timestamp. -/
structure ArtistStats where
  play_count : Nat
  track_count : Nat
  loved : Bool
  disliked : Bool
  loved_track_count : Nat
  disliked_track_count : Nat
  rating : Nat
  last_played : Option Int
deriving DecidableEq, Repr

/-- The configuration constants of `config.py` used by the classifier
(each an `int(os.getenv(...))` with the defaults shown in `defaultConfig`). -/
structure BFConfig where
  KNOWN_ARTIST_MIN_PLAY_COUNT : Nat
  KNOWN_ARTIST_MIN_TRACKS : Nat
  LOVED_PLAY_COUNT_THRESHOLD : Nat
  LOVED_MIN_TRACK_RATING : Nat
  LOVED_MIN_ARTIST_PLAYS : Nat
  LIB_DISLIKED_MIN_TRACK_COUNT : Nat
deriving DecidableEq, Repr

/-- The default values from `config.py`. -/
def defaultConfig : BFConfig :=
  { KNOWN_ARTIST_MIN_PLAY_COUNT := 3
    KNOWN_ARTIST_MIN_TRACKS := 5
    LOVED_PLAY_COUNT_THRESHOLD := 50
    LOVED_MIN_TRACK_RATING := 4
    LOVED_MIN_ARTIST_PLAYS := 10
    LIB_DISLIKED_MIN_TRACK_COUNT := 2 }

/-- The `library_stats` dictionary: an association list in insertion order;
Python dictionary keys are unique. -/
abbrev Library : Type := List (String × ArtistStats)

/-- The "known" test of `RecommendationEngine.__init__`:
`play_count >= KNOWN_ARTIST_MIN_PLAY_COUNT or track_count >= KNOWN_ARTIST_MIN_TRACKS`. -/
def knownCond (cfg : BFConfig) (s : ArtistStats) : Bool :=
  decide (cfg.KNOWN_ARTIST_MIN_PLAY_COUNT ≤ s.play_count) ||
  decide (cfg.KNOWN_ARTIST_MIN_TRACKS ≤ s.track_count)

/-- The "disliked" test of `RecommendationEngine.__init__` (also repeated in
`get_loved_artists`): `disliked_track_count >= LIB_DISLIKED_MIN_TRACK_COUNT
and loved_track_count == 0`. -/
def dislikedCond (cfg : BFConfig) (s : ArtistStats) : Bool :=
  decide (cfg.LIB_DISLIKED_MIN_TRACK_COUNT ≤ s.disliked_track_count) &&
  decide (s.loved_track_count = 0)

/-- `self.known_artists`: the set of normalised names of library artists
passing `knownCond` (a Python set; modelled as the list of its members,
membership being the only observation used). -/
def known_artists (cfg : BFConfig) (lib : Library) : List String :=
  ((lib : List (String × ArtistStats)).filter (fun p => knownCond cfg p.2)).map
    (fun p => normalise_artist_name p.1)

/-- `self.disliked_artists`: the set of normalised names of library artists
passing `dislikedCond`. -/
def disliked_artists (cfg : BFConfig) (lib : Library) : List String :=
  ((lib : List (String × ArtistStats)).filter (fun p => dislikedCond cfg p.2)).map
    (fun p => normalise_artist_name p.1)

/-- The "loved" test of `get_loved_artists`: explicit `loved` flag, or
`play_count >= LOVED_PLAY_COUNT_THRESHOLD`, or
`rating >= LOVED_MIN_TRACK_RATING * 20 and play_count >= LOVED_MIN_ARTIST_PLAYS`. -/
def lovedCond (cfg : BFConfig) (s : ArtistStats) : Bool :=
  s.loved ||
  decide (cfg.LOVED_PLAY_COUNT_THRESHOLD ≤ s.play_count) ||
  (decide (cfg.LOVED_MIN_TRACK_RATING * 20 ≤ s.rating) &&
   decide (cfg.LOVED_MIN_ARTIST_PLAYS ≤ s.play_count))

/-- The `LAST_MONTHS_FILTER` cutoff check inside `get_loved_artists`:
with a configured cutoff date and a recorded `last_played`, the artist is
skipped when `last_played < cutoff_date`. -/
def passesCutoff (cutoff : Option Int) (s : ArtistStats) : Bool :=
  match cutoff, s.last_played with
  | some c, some lp => decide (c ≤ lp)
  | _, _ => true

/-- `RecommendationEngine.get_loved_artists`: iterate the library in order,
skip artists passing the disliked test, keep those passing a loved test and
the optional recency cutoff.  `cutoff` is `cutoff_date` (`none` when
`LAST_MONTHS_FILTER` is 0). -/
def get_loved_artists (cfg : BFConfig) (cutoff : Option Int) (lib : Library) : List String :=
  ((lib : List (String × ArtistStats)).filter
    (fun p => !dislikedCond cfg p.2 && (lovedCond cfg p.2 && passesCutoff cutoff p.2))).map
    (fun p => p.1)

/-! ## Collaboration splitting (`RecommendationEngine._contains_known_artist`) -/

/-- Boolean prefix test on character lists (used to locate separator
occurrences when modelling Python `str.split(sep)`). -/
def isPrefixOfL : List Char → List Char → Bool
  | [], _ => true
  | _ :: _, [] => false
  | a :: as, b :: bs => a == b && isPrefixOfL as bs

/-- The fuelled core of Python `part.split(sep)` for a non-empty separator:
cut at each leftmost, non-overlapping occurrence of `sep`, keeping empty
pieces.  The fuel is structural; with fuel at least the length of the string
(as `splitOnSep` supplies) the `0, s` fallback is unreachable, because each
step consumes at least one character. -/
def splitOnSepFuel (sep : List Char) : Nat → List Char → List (List Char)
  | _, [] => [[]]
  | 0, s => [s]
  | fuel + 1, c :: rest =>
    if sep ≠ [] ∧ isPrefixOfL sep (c :: rest) = true then
      [] :: splitOnSepFuel sep fuel ((c :: rest).drop sep.length)
    else
      match splitOnSepFuel sep fuel rest with
      | [] => [[c]]
      | q :: qs => (c :: q) :: qs

/-- Python `part.split(sep)` for a non-empty separator `sep`. -/
def splitOnSep (sep : List Char) (s : List Char) : List (List Char) :=
  splitOnSepFuel sep s.length s

/-- The separator list of `_contains_known_artist`:
`[' & ', ', ', ' feat. ', ' ft. ', ' featuring ']`. -/
def collaborationSeparators : List (List Char) :=
  [" & ".data, ", ".data, " feat. ".data, " ft. ".data, " featuring ".data]

/-- The loop `for sep in separators: new_parts = [...]; parts = new_parts`:
starting from the single normalised name, split every current part on each
separator in turn. -/
def splitParts (seps : List (List Char)) (init : List Char) : List (List Char) :=
  seps.foldl (fun parts sep => parts.flatMap (splitOnSep sep)) [init]

/-- Drop trailing whitespace (the right half of Python `str.strip()`). -/
def trimR (s : List Char) : List Char :=
  (s.reverse.dropWhile isWsChar).reverse

/-- Python `str.strip()`: drop whitespace from both ends. -/
def trimL (s : List Char) : List Char :=
  trimR (s.dropWhile isWsChar)

/-- `RecommendationEngine._contains_known_artist`: normalise the candidate
name, split on the collaboration separators, strip each part, drop empty
parts, and test whether any part is in the known-artists set. -/
def contains_known_artist (known : List String) (artist_name : String) : Bool :=
  let normalised := normaliseL artist_name.data
  let parts := splitParts collaborationSeparators normalised
  let stripped := (parts.map trimL).filter (fun p => !p.isEmpty)
  stripped.any (fun p => known.contains ⟨p⟩)

/-- The claim's reading of `_contains_known_artist` (for comparison with the
code's behaviour): some fragment obtained by splitting the normalised
candidate name on the collaboration separators *normalises* to a member of
the known set. -/
def fragmentNormalisesIntoKnown (known : List String) (artist_name : String) : Prop :=
  ∃ p ∈ splitParts collaborationSeparators (normaliseL artist_name.data),
    (⟨normaliseL p⟩ : String) ∈ known

/-- The candidate-admission filter of `generate_recommendations`
(lines 416–435): a similar artist is skipped iff its normalised name is in
`known_artists`, or `_contains_known_artist` fires, or its normalised name is
in `disliked_artists`, or it appears verbatim in the library with
known-artist-level statistics. -/
def candidateSkipped (cfg : BFConfig) (known disliked : List String) (lib : Library)
    (name : String) : Bool :=
  known.contains (normalise_artist_name name) ||
  contains_known_artist known name ||
  disliked.contains (normalise_artist_name name) ||
  (match (lib : List (String × ArtistStats)).lookup name with
   | some stats => knownCond cfg stats
   | none => false)

/-! ## Scoring (`generate_recommendations`, lines 474–520)

Python floats are modelled as exact rationals. -/

/-- `rarity_weight = 0.1 + (rarity_pref - 1) * 0.4 / 14`. -/
def rarity_weight (p : ℚ) : ℚ := 1 / 10 + (p - 1) * (4 / 10) / 14

/-- `frequency_weight = 0.5 - (rarity_pref - 1) * 0.15 / 14`. -/
def frequency_weight (p : ℚ) : ℚ := 5 / 10 - (p - 1) * (15 / 100) / 14

/-- `match_weight = 1.0 - rarity_weight - frequency_weight`. -/
def match_weight (p : ℚ) : ℚ := 1 - rarity_weight p - frequency_weight p

/-- The rarity formula `1 / (1 + listeners / 1000000)` as written in the
source (applied by the code to a listener count that has already been
substituted when zero; see `scoreCandidate`). -/
def rarityFormula (l : ℚ) : ℚ := 1 / (1 + l / 1000000)

/-- The scoring-related configuration: the two feature flags and the fixed
weights of the feature-weighted policy (`config.py`). -/
structure ScoringConfig where
  ENABLE_TAG_SIMILARITY : Bool
  ENABLE_PLAY_FREQUENCY_WEIGHTING : Bool
  SCORING_FREQUENCY_WEIGHT : ℚ
  SCORING_TAG_OVERLAP_WEIGHT : ℚ
  SCORING_MATCH_WEIGHT : ℚ
  SCORING_RARITY_WEIGHT : ℚ
deriving DecidableEq, Repr

/-- Both feature flags off: the rarity-preference policy is selected. -/
def rarityPolicyConfig : ScoringConfig :=
  { ENABLE_TAG_SIMILARITY := false
    ENABLE_PLAY_FREQUENCY_WEIGHTING := false
    SCORING_FREQUENCY_WEIGHT := 3 / 10
    SCORING_TAG_OVERLAP_WEIGHT := 3 / 10
    SCORING_MATCH_WEIGHT := 2 / 10
    SCORING_RARITY_WEIGHT := 2 / 10 }

/-- One entry of the `recommendations` aggregation map, as accumulated by
`generate_recommendations` before scoring.  `tags` is a Python set; its
members are listed here, order unobservable to the scorer. -/
structure CandidateData where
  recommended_by : List String
  recommender_weights : List ℚ
  listeners : Nat
  tags : List String
  match_scores : List ℚ
deriving DecidableEq, Repr

/-- One scored recommendation as assembled at lines 509–520 (the fields the
refinement pass reads and writes; `recommended_by`/`tags` are carried along
unchanged and omitted here). -/
structure ScoredRec where
  name : String
  score : ℚ
  frequency : Nat
  avg_match : ℚ
  listeners : Nat
  rarity_score : ℚ
  tag_similarity : ℚ
  rarity_pref : ℤ
deriving DecidableEq, Repr

/-- The scoring of one candidate (lines 476–520).  `tagSim` stands for the
value `calculate_tag_similarity` would return for this candidate's tags (the
code computes it only when `ENABLE_TAG_SIMILARITY` is set and the tag profile
is non-empty; it is `0.0` otherwise).  Note `listeners = data["listeners"] or 1`:
an aggregated count of zero is replaced by one before the rarity formula and
before being stored. -/
def scoreCandidate (sc : ScoringConfig) (tagSim : ℚ) (rarity_pref : ℤ)
    (name : String) (data : CandidateData) : ScoredRec :=
  let frequency_score : ℚ :=
    if sc.ENABLE_PLAY_FREQUENCY_WEIGHTING && !data.recommender_weights.isEmpty then
      (data.recommender_weights.sum / data.recommender_weights.length) / 100
    else
      (data.recommended_by.length : ℚ)
  let avg_match : ℚ := data.match_scores.sum / data.match_scores.length
  let listeners : Nat := if data.listeners = 0 then 1 else data.listeners
  let rarity_score : ℚ := rarityFormula (listeners : ℚ)
  let tag_similarity : ℚ := if sc.ENABLE_TAG_SIMILARITY then tagSim else 0
  let score : ℚ :=
    if sc.ENABLE_TAG_SIMILARITY || sc.ENABLE_PLAY_FREQUENCY_WEIGHTING then
      frequency_score * sc.SCORING_FREQUENCY_WEIGHT +
      tag_similarity * sc.SCORING_TAG_OVERLAP_WEIGHT +
      avg_match * sc.SCORING_MATCH_WEIGHT +
      rarity_score * sc.SCORING_RARITY_WEIGHT
    else
      frequency_score * frequency_weight (rarity_pref : ℚ) +
      avg_match * match_weight (rarity_pref : ℚ) +
      rarity_score * rarity_weight (rarity_pref : ℚ)
  { name := name
    score := score
    frequency := data.recommended_by.length
    avg_match := avg_match
    listeners := listeners
    rarity_score := rarity_score
    tag_similarity := tag_similarity
    rarity_pref := rarity_pref }

/-! ## Tag-blacklist pass (`generate_recommendations`, lines 452–472) -/

/-- A Python `set` value, as stored in `data["tags"]` (built with `set()` and
`.update(...)`); only membership of its elements is observable. -/
structure PySet (α : Type) where
  elems : List α
deriving DecidableEq, Repr

/-- Python run-time errors surfaced by the model. -/
inductive PyError where
  | typeError (msg : String)
deriving DecidableEq, Repr

/-- Python `tags_to_check[:n]` where `tags_to_check` is a `set`: CPython
`set` objects do not implement `__getitem__`, so slicing raises
`TypeError: 'set' object is not subscriptable` unconditionally. -/
def pySliceSet (s : PySet String) (n : Nat) : Except PyError (List String) :=
  Except.error (PyError.typeError "set object is not subscriptable")

/-- The per-candidate body of the blacklist loop: build `tags_to_check`
(sliced to the top N when `REC_TAG_BLACKLIST_TOP_N_TAGS > 0`), lowercase it,
and drop the candidate iff it intersects the blacklist.  Returns `true` when
the candidate is dropped. -/
def blacklistDropsCandidate (blacklist : List String) (topN : Nat)
    (tags : PySet String) : Except PyError Bool :=
  if 0 < topN then do
    let sliced ← pySliceSet tags topN
    pure (sliced.any (fun t => blacklist.contains (pyLower t)))
  else
    pure (tags.elems.any (fun t => blacklist.contains (pyLower t)))

/-- The blacklist filtering loop over the aggregated candidates (entered only
when `REC_TAG_BLACKLIST` is non-empty); surviving candidates keep their data
and order. -/
def tagBlacklistLoop (blacklist : List String) (topN : Nat) :
    List (String × PySet String) → Except PyError (List (String × PySet String))
  | [] => Except.ok []
  | (name, tags) :: rest => do
    let dropped ← blacklistDropsCandidate blacklist topN tags
    let restFiltered ← tagBlacklistLoop blacklist topN rest
    pure (if dropped then restFiltered else (name, tags) :: restFiltered)

/-- The whole blacklist pass: a no-op when `REC_TAG_BLACKLIST` is empty. -/
def tagBlacklistPass (blacklist : List String) (topN : Nat)
    (cands : List (String × PySet String)) : Except PyError (List (String × PySet String)) :=
  if blacklist.isEmpty then Except.ok cands else tagBlacklistLoop blacklist topN cands

/-! ## Two-phase refinement (`generate_recommendations`, lines 522–547) -/

/-- The body of the refinement loop for one record, given the authoritative
listener count returned by `get_artist_info` (executed only when that count
is positive): overwrite `listeners`, recompute `rarity_score` with the rarity
formula, and recompute `score` under the active policy (the feature-weighted
branch reuses the raw `frequency` count, lines 531–538; the rarity branch
reuses the stored `rarity_pref`, lines 539–545). -/
def refineRec (sc : ScoringConfig) (authListeners : Nat) (r : ScoredRec) : ScoredRec :=
  let rarity_score := rarityFormula (authListeners : ℚ)
  let score :=
    if sc.ENABLE_TAG_SIMILARITY || sc.ENABLE_PLAY_FREQUENCY_WEIGHTING then
      (r.frequency : ℚ) * sc.SCORING_FREQUENCY_WEIGHT +
      r.tag_similarity * sc.SCORING_TAG_OVERLAP_WEIGHT +
      r.avg_match * sc.SCORING_MATCH_WEIGHT +
      rarity_score * sc.SCORING_RARITY_WEIGHT
    else
      (r.frequency : ℚ) * frequency_weight (r.rarity_pref : ℚ) +
      r.avg_match * match_weight (r.rarity_pref : ℚ) +
      rarity_score * rarity_weight (r.rarity_pref : ℚ)
  { r with listeners := authListeners, rarity_score := rarity_score, score := score }

/-- The refinement loop, position-indexed: `for rec in scored[:100]` mutates
exactly the first 100 records of the provisionally sorted list, and each only
when `get_artist_info` returned a record with a positive `listeners` field.
`info name = 0` models both an empty `artist_info` and a zero count. -/
def refineGo (sc : ScoringConfig) (info : String → Nat) :
    Nat → List ScoredRec → List ScoredRec
  | _, [] => []
  | i, r :: rest =>
    (if i < 100 ∧ 0 < info r.name then refineRec sc (info r.name) r else r) ::
      refineGo sc info (i + 1) rest

/-- `scored_recommendations[:100]` refinement over the whole list. -/
def refineTop (sc : ScoringConfig) (info : String → Nat) (l : List ScoredRec) :
    List ScoredRec :=
  refineGo sc info 0 l

/-- `scored_recommendations.sort(key=lambda x: x["score"], reverse=True)`:
Python's stable sort, descending by score. -/
def sortByScoreDesc (l : List ScoredRec) : List ScoredRec :=
  l.mergeSort (fun a b => decide (b.score ≤ a.score))

/-- The tail of `generate_recommendations` after provisional scoring
(lines 522–549): provisional descending sort, refinement of the top 100,
final descending re-sort. -/
def refineAndSort (sc : ScoringConfig) (info : String → Nat)
    (scored : List ScoredRec) : List ScoredRec :=
  sortByScoreDesc (refineTop sc info (sortByScoreDesc scored))

/-! ## Recommendations cache (`load_recommendations_cache`) -/

/-- The observable state of `recommendations_cache.json` at load time.
`corrupt` covers everything the `except (json.JSONDecodeError, KeyError,
ValueError)` handler catches: undecodable JSON, a missing `timestamp` or
`recommendations` key, or an unparsable timestamp.  In `valid`, `age_days`
is `(datetime.now() - cache_time).days`, `rarity_preference` is the value of
`cache_data.get("rarity_preference")` (`none` when absent), and
`recommendations` is the stored payload, left opaque. -/
inductive RecCacheFile (α : Type) where
  | missing
  | corrupt
  | valid (age_days : Int) (rarity_preference : Option Int) (recommendations : α)
deriving DecidableEq, Repr

/-- `load_recommendations_cache`: `None` when the file is missing or corrupt,
when `age_days > REC_CACHE_EXPIRY_DAYS`, or when the stored rarity preference
differs from the requested one; the stored list otherwise. -/
def load_recommendations_cache {α : Type} (expiry_days : Int) (rarity_pref : Int) :
    RecCacheFile α → Option α
  | RecCacheFile.missing => none
  | RecCacheFile.corrupt => none
  | RecCacheFile.valid age rp recs =>
    if expiry_days < age then none
    else if rp ≠ some rarity_pref then none
    else some recs

/-! ## Metadata client (`LastFmClient`, lines 104–212) -/

/-- The cache keys built by the three client operations: a method prefix plus
the *lowercased* (not normalised) artist name. -/
def similar_cache_key (artist_name : String) : String :=
  "similar_" ++ pyLower artist_name

/-- `get_artist_tags` cache key. -/
def tags_cache_key (artist_name : String) : String :=
  "tags_" ++ pyLower artist_name

/-- `get_artist_info` cache key. -/
def info_cache_key (artist_name : String) : String :=
  "info_" ++ pyLower artist_name

/-- One similar artist as decoded from a successful `artist.getsimilar`
response (name, match score, listeners), before tag enrichment. -/
structure SimilarEntry where
  name : String
  match_score : ℚ
  listeners : Nat
deriving DecidableEq, Repr

/-- A similar artist after the tag-enrichment loop (`artist["tags"] = ...`). -/
structure SimilarTagged where
  name : String
  match_score : ℚ
  listeners : Nat
  tags : List String
deriving DecidableEq, Repr

/-- The outcome of the network request performed by `_make_request` for one
`artist.getsimilar` call.  `ok` is a decoded response carrying the
`similarartists.artist` list; `emptyResult` is a decoded response without
those keys; `transportFailure` is a `requests.exceptions.RequestException`
(timeout, connection error), which `_make_request` turns into `{}`;
`malformed` is a `json.JSONDecodeError`, on which `_make_request` calls
`sys.exit(1)`. -/
inductive NetResult (α : Type) where
  | ok (val : α)
  | emptyResult
  | transportFailure
  | malformed
deriving DecidableEq, Repr

/-- The fatal termination performed by `sys.exit(1)` when a response body
cannot be decoded (invalid API key). -/
inductive FatalExit where
  | exitOne
deriving DecidableEq, Repr

/-- The portion of the client cache holding `similar_`-prefixed entries,
keyed by the full cache-key string.  (`tags_` and `info_` entries live under
disjoint key prefixes and are not read or written by `get_similar_artists`
for its own key, so they are abstracted out of this state.) -/
abbrev SimilarCache : Type := List (String × List SimilarTagged)

/-- `self.cache["data"].get(key)` on the similar-artist cache. -/
def cacheLookup (cache : SimilarCache) (key : String) : Option (List SimilarTagged) :=
  (cache : List (String × List SimilarTagged)).lookup key

/-- `self.cache["data"][key] = value`: overwrite an existing binding or add a
new one. -/
def cacheStore (cache : SimilarCache) (key : String) (v : List SimilarTagged) :
    SimilarCache :=
  if (cacheLookup cache key).isSome then
    (cache : List (String × List SimilarTagged)).map
      (fun p => if p.1 = key then (key, v) else p)
  else
    (cache : List (String × List SimilarTagged)) ++ [(key, v)]

/-- `LastFmClient.get_similar_artists`: consult the cache under
`similar_cache_key`; on a hit, return the stored list with no network
traffic.  On a miss, perform the rate-limited request: a malformed body
aborts the process; a transport failure or key-less response yields the
empty list; a decoded response is enriched with tags (`tagsOf` abstracts
`self.get_artist_tags`, whose cache entries live under the disjoint `tags_`
prefix).  The result — empty or not — is then written to the cache under the
same key.  Returns (result, new cache, whether the network was used). -/
def get_similar_artists (net : String → Nat → NetResult (List SimilarEntry))
    (tagsOf : String → List String) (cache : SimilarCache)
    (artist_name : String) (limit : Nat) :
    Except FatalExit (List SimilarTagged × SimilarCache × Bool) :=
  match cacheLookup cache (similar_cache_key artist_name) with
  | some cached => Except.ok (cached, cache, false)
  | none =>
    match net artist_name limit with
    | NetResult.malformed => Except.error FatalExit.exitOne
    | NetResult.transportFailure =>
      Except.ok ([], cacheStore cache (similar_cache_key artist_name) [], true)
    | NetResult.emptyResult =>
      Except.ok ([], cacheStore cache (similar_cache_key artist_name) [], true)
    | NetResult.ok entries =>
      Except.ok (entries.map
          (fun e => SimilarTagged.mk e.name e.match_score e.listeners (tagsOf e.name)),
        cacheStore cache (similar_cache_key artist_name)
          (entries.map
            (fun e => SimilarTagged.mk e.name e.match_score e.listeners (tagsOf e.name))),
        true)

/-- A character that survives `_normalise_artist_name` unchanged: not a
stripped quote, fixed by lowercasing, and equal to `' '` if whitespace. -/
def CleanChar (c : Char) : Prop :=
  isQuoteChar c = false ∧ c.toLower = c ∧ (isWsChar c = true → c = ' ')

/-- A string in the image of `_normalise_artist_name`, or a fragment of one:
clean characters and no two adjacent spaces. -/
def Clean (p : List Char) : Prop :=
  (∀ c ∈ p, CleanChar c) ∧ List.Chain' (fun x y => ¬(x = ' ' ∧ y = ' ')) p

/-! ## Theorems -/

/-- C1: for every rarity preference `p` with `1 ≤ p ≤ 15`, the
rarity-preference policy computes `rarityWeight = 0.1 + (p−1)·0.4/14`,
`frequencyWeight = 0.5 − (p−1)·0.15/14`, `matchWeight = 1 − rarityWeight −
frequencyWeight` (and the score of `scoreCandidate` under the
rarity-preference policy is the corresponding blend); the three weights sum
to exactly 1 for every such `p`, `rarityWeight(15) > rarityWeight(1)`, and
`frequencyWeight(15) < frequencyWeight(1)`. -/
theorem c1_rarity_preference_weights (p : ℤ) (h1 : 1 ≤ p) (h15 : p ≤ 15) :
    rarity_weight (p : ℚ) = 1 / 10 + ((p : ℚ) - 1) * (4 / 10) / 14 ∧
    frequency_weight (p : ℚ) = 5 / 10 - ((p : ℚ) - 1) * (15 / 100) / 14 ∧
    match_weight (p : ℚ) = 1 - rarity_weight (p : ℚ) - frequency_weight (p : ℚ) ∧
    (∀ (ts : ℚ) (name : String) (d : CandidateData),
      (scoreCandidate rarityPolicyConfig ts p name d).score =
        (d.recommended_by.length : ℚ) * frequency_weight (p : ℚ) +
        (d.match_scores.sum / d.match_scores.length) * match_weight (p : ℚ) +
        rarityFormula ((if d.listeners = 0 then 1 else d.listeners : ℕ) : ℚ) *
          rarity_weight (p : ℚ)) ∧
    rarity_weight (p : ℚ) + frequency_weight (p : ℚ) + match_weight (p : ℚ) = 1 ∧
    rarity_weight 1 < rarity_weight 15 ∧
    frequency_weight 15 < frequency_weight 1 := by
  refine ⟨rfl, rfl, rfl, ?_, ?_, ?_, ?_⟩
  · intro ts name d
    simp [scoreCandidate, rarityPolicyConfig]
  · unfold match_weight
    ring
  · norm_num [rarity_weight]
  · norm_num [frequency_weight]

/-- Witness for C1 at `p = 7`. -/
theorem c1_rarity_preference_weights_witness :
    rarity_weight (7 : ℚ) + frequency_weight (7 : ℚ) + match_weight (7 : ℚ) = 1 ∧
    rarity_weight 1 < rarity_weight 15 ∧
    frequency_weight 15 < frequency_weight 1 := by
  have h := c1_rarity_preference_weights 7 (by norm_num) (by norm_num)
  have hsum := h.2.2.2.2.1
  have hr := h.2.2.2.2.2.1
  have hf := h.2.2.2.2.2.2
  norm_num at hsum ⊢
  exact ⟨hsum, hr, hf⟩

/-- C2 counterexample: a candidate whose aggregated listeners count is 0 is
scored with the count replaced by 1 (`data["listeners"] or 1`), so its
`rarity_score` is not `1 / (1 + listeners/1_000_000)` applied to the
aggregated count (which would equal 1). -/
theorem c2_rarity_score_counterexample :
    (scoreCandidate rarityPolicyConfig 0 7 "c"
        { recommended_by := ["A"], recommender_weights := [], listeners := 0,
          tags := [], match_scores := [1 / 2] }).rarity_score ≠
      rarityFormula ((0 : ℕ) : ℚ) := by
  norm_num [scoreCandidate, rarityPolicyConfig, rarityFormula]

/-- C2 (amended): `rarity_score` equals `1 / (1 + l/1_000_000)` where `l` is
the aggregated listeners count with 0 replaced by 1; the formula itself is
strictly decreasing and bounded in (0, 1], equal to 1 exactly at 0, so every
stored `rarity_score` lies in (0, 1). -/
theorem c2_rarity_score_amended :
    (∀ (sc : ScoringConfig) (ts : ℚ) (p : ℤ) (name : String) (d : CandidateData),
      (scoreCandidate sc ts p name d).rarity_score =
        rarityFormula ((if d.listeners = 0 then 1 else d.listeners : ℕ) : ℚ)) ∧
    (∀ x y : ℚ, 0 ≤ x → x < y → rarityFormula y < rarityFormula x) ∧
    (∀ x : ℚ, 0 ≤ x → 0 < rarityFormula x ∧ rarityFormula x ≤ 1) ∧
    (∀ x : ℚ, 0 ≤ x → (rarityFormula x = 1 ↔ x = 0)) ∧
    (∀ (sc : ScoringConfig) (ts : ℚ) (p : ℤ) (name : String) (d : CandidateData),
      0 < (scoreCandidate sc ts p name d).rarity_score ∧
      (scoreCandidate sc ts p name d).rarity_score < 1) := by
  have hpos : ∀ x : ℚ, 0 ≤ x → (0 : ℚ) < 1 + x / 1000000 := by
    intro x hx
    have : (0 : ℚ) ≤ x / 1000000 := by positivity
    linarith
  refine ⟨fun sc ts p name d => rfl, ?_, ?_, ?_, ?_⟩
  · intro x y hx hxy
    unfold rarityFormula
    have hx' := hpos x hx
    have hy' := hpos y (le_of_lt (lt_of_le_of_lt hx hxy))
    apply div_lt_div_of_pos_left one_pos hx'
    have : x / 1000000 < y / 1000000 := by
      apply div_lt_div_of_pos_right hxy
      norm_num
    linarith
  · intro x hx
    unfold rarityFormula
    constructor
    · positivity
    · rw [div_le_one (hpos x hx)]
      have : (0 : ℚ) ≤ x / 1000000 := by positivity
      linarith
  · intro x hx
    unfold rarityFormula
    rw [div_eq_one_iff_eq (ne_of_gt (hpos x hx))]
    constructor
    · intro h
      have : x / 1000000 = 0 := by linarith
      field_simp at this
      exact this
    · intro h
      rw [h]
      norm_num
  · intro sc ts p name d
    set L : ℕ := if d.listeners = 0 then 1 else d.listeners with hL
    have hL1 : 1 ≤ L := by
      rw [hL]
      split
      · exact le_refl 1
      · omega
    have hLq : (1 : ℚ) ≤ (L : ℚ) := by exact_mod_cast hL1
    have hrs : (scoreCandidate sc ts p name d).rarity_score = rarityFormula (L : ℚ) := rfl
    rw [hrs]
    unfold rarityFormula
    have hden : (1 : ℚ) < 1 + (L : ℚ) / 1000000 := by
      have : (0 : ℚ) < (L : ℚ) / 1000000 := by positivity
      linarith
    constructor
    · positivity
    · rw [div_lt_one (by linarith)]
      exact hden

/-- Witness for C2 (amended) at concrete inputs. -/
theorem c2_rarity_score_amended_witness :
    (scoreCandidate rarityPolicyConfig 0 7 "c"
        { recommended_by := ["A"], recommender_weights := [], listeners := 0,
          tags := [], match_scores := [1 / 2] }).rarity_score =
      rarityFormula ((1 : ℕ) : ℚ) ∧
    rarityFormula 5 < rarityFormula 3 ∧
    0 < rarityFormula 5 ∧ rarityFormula 5 ≤ 1 ∧
    (rarityFormula 0 = 1 ↔ (0 : ℚ) = 0) := by
  have h := c2_rarity_score_amended
  refine ⟨?_, h.2.1 3 5 (by norm_num) (by norm_num),
    (h.2.2.1 5 (by norm_num)).1, (h.2.2.1 5 (by norm_num)).2,
    h.2.2.2.1 0 le_rfl⟩
  have h1 := h.1 rarityPolicyConfig 0 7 "c"
    { recommended_by := ["A"], recommender_weights := [], listeners := 0,
      tags := [], match_scores := [1 / 2] }
  simpa using h1

/-- C3 (code bug): with a non-empty blacklist and `TOP_N = 2`, the blacklist
pass raises `TypeError` on the first candidate, because `data["tags"]` is a
Python `set` and `tags_to_check[:2]` slices a set; with `TOP_N = 0` the pass
works and drops exactly the candidates whose (lowercased) tags intersect the
blacklist.  The claimed "kept when the blacklisted tag is only at position 3"
behaviour is unreachable. -/
theorem c3_blacklist_topn_type_error :
    tagBlacklistPass ["rock"] 2
        [("x", PySet.mk ["indie", "pop", "rock"])] =
      Except.error (PyError.typeError "set object is not subscriptable") ∧
    tagBlacklistPass ["rock"] 0
        [("x", PySet.mk ["indie", "pop", "rock"])] = Except.ok [] ∧
    tagBlacklistPass ["rock"] 0
        [("y", PySet.mk ["indie", "pop"])] =
      Except.ok [("y", PySet.mk ["indie", "pop"])] := by
  refine ⟨rfl, rfl, rfl⟩

/-- C7: `load_recommendations_cache` returns the stored payload exactly when
the file exists, parses, its age is within the expiry window, and the stored
rarity preference equals the requested one; an excessive age or a differing
(or absent) stored preference — even when the other condition passes — and a
missing or corrupt file all yield `none`. -/
theorem c7_load_recommendations_cache {α : Type} (expiry_days rarity_pref : Int)
    (f : RecCacheFile α) :
    (∀ r : α, load_recommendations_cache expiry_days rarity_pref f = some r ↔
      ∃ age, f = RecCacheFile.valid age (some rarity_pref) r ∧ age ≤ expiry_days) ∧
    (∀ (age : Int) (rp : Option Int) (recs : α),
      expiry_days < age ∨ rp ≠ some rarity_pref →
      load_recommendations_cache expiry_days rarity_pref
        (RecCacheFile.valid age rp recs) = none) ∧
    load_recommendations_cache expiry_days rarity_pref
      (RecCacheFile.missing : RecCacheFile α) = none ∧
    load_recommendations_cache expiry_days rarity_pref
      (RecCacheFile.corrupt : RecCacheFile α) = none := by
  refine ⟨?_, ?_, rfl, rfl⟩
  · intro r
    cases f with
    | missing => simp [load_recommendations_cache]
    | corrupt => simp [load_recommendations_cache]
    | valid age rp recs =>
        simp only [load_recommendations_cache]
        by_cases hage : expiry_days < age
        · rw [if_pos hage]
          constructor
          · intro h
            exact absurd h (by simp)
          · rintro ⟨age', heq, hle⟩
            injection heq with h1 h2 h3
            omega
        · rw [if_neg hage]
          by_cases hrp : rp ≠ some rarity_pref
          · rw [if_pos hrp]
            constructor
            · intro h
              exact absurd h (by simp)
            · rintro ⟨age', heq, hle⟩
              injection heq with h1 h2 h3
              exact absurd h2 hrp
          · rw [if_neg hrp]
            push_neg at hrp
            constructor
            · intro h
              injection h with h
              exact ⟨age, by rw [hrp, h], by omega⟩
            · rintro ⟨age', heq, hle⟩
              injection heq with h1 h2 h3
              rw [h3]
  · intro age rp recs hbad
    simp only [load_recommendations_cache]
    by_cases hage : expiry_days < age
    · rw [if_pos hage]
    · rw [if_neg hage]
      have hrp : rp ≠ some rarity_pref := by
        rcases hbad with h | h
        · exact absurd h hage
        · exact h
      rw [if_pos hrp]

/-- Witness for C7 at concrete inputs. -/
theorem c7_load_recommendations_cache_witness :
    (load_recommendations_cache 30 7 (RecCacheFile.valid 10 (some 7) [1, 2]) =
        some [1, 2] ↔
      ∃ age, RecCacheFile.valid 10 (some 7) ([1, 2] : List Nat) =
          RecCacheFile.valid age (some 7) [1, 2] ∧ age ≤ 30) ∧
    load_recommendations_cache 30 7 (RecCacheFile.valid 31 (some 7) [(1 : Nat)]) = none ∧
    load_recommendations_cache 30 7 (RecCacheFile.valid 10 (some 8) [(1 : Nat)]) = none := by
  have h := @c7_load_recommendations_cache (List Nat) 30 7
  exact ⟨(h (RecCacheFile.valid 10 (some 7) [1, 2])).1 [1, 2],
    (h (RecCacheFile.valid 31 (some 7) [1])).2.1 31 (some 7) [1] (Or.inl (by norm_num)),
    (h (RecCacheFile.valid 10 (some 8) [1])).2.1 10 (some 8) [1] (Or.inr (by simp))⟩

/-- In a library with unique artist names (as in a Python dictionary), an
artist name determines its statistics record. -/
theorem library_keys_unique {lib : Library} (hnd : (lib.map Prod.fst).Nodup)
    {a : String} {s s' : ArtistStats} (h1 : (a, s) ∈ lib) (h2 : (a, s') ∈ lib) :
    s = s' := by
  induction lib with
  | nil => cases h1
  | cons p t ih =>
      simp only [List.map_cons, List.nodup_cons] at hnd
      rcases List.mem_cons.mp h1 with heq1 | h1t
      · rcases List.mem_cons.mp h2 with heq2 | h2t
        · rw [← heq1] at heq2
          injection heq2 with _ h
          exact h.symm
        · exfalso
          apply hnd.1
          rw [← heq1]
          exact List.mem_map.mpr ⟨(a, s'), h2t, rfl⟩
      · rcases List.mem_cons.mp h2 with heq2 | h2t
        · exfalso
          apply hnd.1
          rw [← heq2]
          exact List.mem_map.mpr ⟨(a, s), h1t, rfl⟩
        · exact ih hnd.2 h1t h2t

/-- C5: for every input statistics map, `known_artists` contains exactly the
normalised names of artists with `play_count ≥ KNOWN_ARTIST_MIN_PLAY_COUNT`
or `track_count ≥ KNOWN_ARTIST_MIN_TRACKS`, and `disliked_artists` contains
exactly the normalised names of artists with `disliked_track_count ≥
LIB_DISLIKED_MIN_TRACK_COUNT` and `loved_track_count = 0`; both are pure
functions of the configuration and the statistics map alone (they are
recomputed once, at engine construction). -/
theorem c5_known_and_disliked_sets (cfg : BFConfig) (lib : Library) (x : String) :
    (x ∈ known_artists cfg lib ↔
      ∃ a s, (a, s) ∈ lib ∧
        (cfg.KNOWN_ARTIST_MIN_PLAY_COUNT ≤ s.play_count ∨
         cfg.KNOWN_ARTIST_MIN_TRACKS ≤ s.track_count) ∧
        x = normalise_artist_name a) ∧
    (x ∈ disliked_artists cfg lib ↔
      ∃ a s, (a, s) ∈ lib ∧
        cfg.LIB_DISLIKED_MIN_TRACK_COUNT ≤ s.disliked_track_count ∧
        s.loved_track_count = 0 ∧
        x = normalise_artist_name a) := by
  constructor
  · simp only [known_artists, List.mem_map, List.mem_filter, knownCond,
      Bool.or_eq_true, decide_eq_true_eq]
    constructor
    · rintro ⟨⟨a, s⟩, ⟨hmem, hcond⟩, rfl⟩
      exact ⟨a, s, hmem, hcond, rfl⟩
    · rintro ⟨a, s, hmem, hcond, rfl⟩
      exact ⟨(a, s), ⟨hmem, hcond⟩, rfl⟩
  · simp only [disliked_artists, List.mem_map, List.mem_filter, dislikedCond,
      Bool.and_eq_true, decide_eq_true_eq]
    constructor
    · rintro ⟨⟨a, s⟩, ⟨hmem, hc1, hc2⟩, rfl⟩
      exact ⟨a, s, hmem, hc1, hc2, rfl⟩
    · rintro ⟨a, s, hmem, hc1, hc2, rfl⟩
      exact ⟨(a, s), ⟨hmem, hc1, hc2⟩, rfl⟩

/-- C10: a library artist whose statistics satisfy the disliked criteria
(`disliked_track_count ≥ LIB_DISLIKED_MIN_TRACK_COUNT` and
`loved_track_count = 0`) is never returned by `get_loved_artists`, even when
it also satisfies a loved condition — the disliked test is applied with
`continue` before any loved test. -/
theorem c10_disliked_never_seed (cfg : BFConfig) (cutoff : Option Int) (lib : Library)
    (a : String) (s : ArtistStats)
    (hnd : (lib.map Prod.fst).Nodup) (hmem : (a, s) ∈ lib)
    (hdis : cfg.LIB_DISLIKED_MIN_TRACK_COUNT ≤ s.disliked_track_count ∧
      s.loved_track_count = 0) :
    a ∉ get_loved_artists cfg cutoff lib := by
  intro hin
  simp only [get_loved_artists, List.mem_map, List.mem_filter] at hin
  obtain ⟨⟨a', s'⟩, ⟨hmem', hcond⟩, heq⟩ := hin
  simp only at heq
  subst heq
  have hss : s' = s := library_keys_unique hnd hmem' hmem
  subst hss
  simp only [dislikedCond, Bool.and_eq_true, Bool.not_eq_true', Bool.and_eq_false_iff,
    decide_eq_false_iff_not] at hcond
  rcases hcond.1 with h | h
  · exact absurd hdis.1 (by simpa using h)
  · exact absurd hdis.2 (by simpa using h)

/-- Witness for C10: an artist with two disliked tracks, no loved tracks, and
an explicit loved flag with a high play count is still not a seed. -/
theorem c10_disliked_never_seed_witness :
    "X" ∉ get_loved_artists defaultConfig none
      [("X", { play_count := 100, track_count := 10, loved := true,
               disliked := false, loved_track_count := 0,
               disliked_track_count := 2, rating := 100, last_played := none })] :=
  c10_disliked_never_seed defaultConfig none _ "X"
    { play_count := 100, track_count := 10, loved := true, disliked := false,
      loved_track_count := 0, disliked_track_count := 2, rating := 100,
      last_played := none }
    (by decide) (by decide) (by decide)

/-- Position-indexed description of the refinement loop. -/
theorem refineGo_getElem? (sc : ScoringConfig) (info : String → Nat)
    (l : List ScoredRec) : ∀ (i j : Nat),
    (refineGo sc info i l)[j]? = (l[j]?).map
      (fun r => if i + j < 100 ∧ 0 < info r.name then refineRec sc (info r.name) r
                else r) := by
  induction l with
  | nil => intro i j; simp [refineGo]
  | cons r rest ih =>
      intro i j
      cases j with
      | zero => simp [refineGo]
      | succ j' =>
          have step : (refineGo sc info i (r :: rest))[j' + 1]? =
              (refineGo sc info (i + 1) rest)[j']? := by
            simp [refineGo]
          rw [step, ih (i + 1) j']
          have harith : i + 1 + j' = i + (j' + 1) := by omega
          rw [harith]
          simp

/-- The refinement loop preserves list length. -/
theorem refineGo_length (sc : ScoringConfig) (info : String → Nat)
    (l : List ScoredRec) : ∀ i : Nat, (refineGo sc info i l).length = l.length := by
  induction l with
  | nil => intro i; simp [refineGo]
  | cons r rest ih => intro i; simp [refineGo, ih (i + 1)]

/-- C4 counterexample: a candidate inside the top-100 slice whose
`get_artist_info` lookup yields no positive listener count (an empty record
or a zero count) keeps its provisional `listeners`, `rarity_score`, and
`score` — they are not recomputed from the authoritative count as the claim
states (which would set `rarity_score` to `rarityFormula 0 = 1`). -/
theorem c4_refinement_counterexample :
    refineTop rarityPolicyConfig (fun _ => 0)
        [{ name := "c", score := 1 / 2, frequency := 1, avg_match := 1 / 2,
           listeners := 500000, rarity_score := 2 / 3, tag_similarity := 0,
           rarity_pref := 7 }] =
      [{ name := "c", score := 1 / 2, frequency := 1, avg_match := 1 / 2,
         listeners := 500000, rarity_score := 2 / 3, tag_similarity := 0,
         rarity_pref := 7 }] ∧
    (2 / 3 : ℚ) ≠ rarityFormula ((0 : ℕ) : ℚ) ∧
    (500000 : ℕ) ≠ 0 := by
  refine ⟨rfl, by norm_num [rarityFormula], by norm_num⟩

/-- C4 (amended): after provisional scoring and a descending sort, exactly
the first `min(100, n)` records are offered a `get_artist_info` refinement;
such a record is rewritten by `refineRec` (listeners, rarity and score
recomputed from the authoritative count) when the lookup returns a positive
listener count and is kept verbatim otherwise; every record at position ≥ 100
is kept verbatim; and the final list is the refined list re-sorted by score
descending (a permutation of it, sorted). -/
theorem c4_refinement_amended (sc : ScoringConfig) (info : String → Nat)
    (l : List ScoredRec) :
    (refineTop sc info l).length = l.length ∧
    (∀ i r, l[i]? = some r → 100 ≤ i → (refineTop sc info l)[i]? = some r) ∧
    (∀ i r, l[i]? = some r → i < 100 →
      (refineTop sc info l)[i]? =
        some (if 0 < info r.name then refineRec sc (info r.name) r else r)) ∧
    refineAndSort sc info l = sortByScoreDesc (refineTop sc info (sortByScoreDesc l)) ∧
    (sortByScoreDesc (refineTop sc info l)).Perm (refineTop sc info l) ∧
    List.Pairwise (fun a b => b.score ≤ a.score) (sortByScoreDesc (refineTop sc info l)) := by
  refine ⟨refineGo_length sc info l 0, ?_, ?_, rfl, ?_, ?_⟩
  · intro i r hir hi
    rw [refineTop, refineGo_getElem? sc info l 0 i, hir]
    simp only [Option.map_some']
    rw [if_neg]
    rintro ⟨h1, _⟩
    omega
  · intro i r hir hi
    rw [refineTop, refineGo_getElem? sc info l 0 i, hir]
    simp only [Option.map_some']
    by_cases hinfo : 0 < info r.name
    · rw [if_pos ⟨by omega, hinfo⟩, if_pos hinfo]
    · rw [if_neg (fun hc => hinfo hc.2), if_neg hinfo]
  · exact List.mergeSort_perm _ _
  · have hs := @List.sorted_mergeSort ScoredRec
      (fun a b : ScoredRec => decide (b.score ≤ a.score))
      (fun a b c hab hbc => by
        simp only [decide_eq_true_eq] at *
        exact le_trans hbc hab)
      (fun a b => by
        rcases le_total a.score b.score with h | h <;> simp [h])
      (refineTop sc info l)
    exact hs.imp (fun h => of_decide_eq_true h)

/-- Witness for C4 (amended): a two-element list, one refreshed (positive
authoritative count), one not. -/
theorem c4_refinement_amended_witness :
    (refineTop rarityPolicyConfig (fun _ => 2000000)
        [{ name := "c", score := 1 / 2, frequency := 1, avg_match := 1 / 2,
           listeners := 500000, rarity_score := 2 / 3, tag_similarity := 0,
           rarity_pref := 7 }])[0]? =
      some (refineRec rarityPolicyConfig 2000000
        { name := "c", score := 1 / 2, frequency := 1, avg_match := 1 / 2,
          listeners := 500000, rarity_score := 2 / 3, tag_similarity := 0,
          rarity_pref := 7 }) := by
  have h := c4_refinement_amended rarityPolicyConfig (fun _ => 2000000)
    [{ name := "c", score := 1 / 2, frequency := 1, avg_match := 1 / 2,
       listeners := 500000, rarity_score := 2 / 3, tag_similarity := 0,
       rarity_pref := 7 }]
  have h3 := h.2.2.1 0
    { name := "c", score := 1 / 2, frequency := 1, avg_match := 1 / 2,
      listeners := 500000, rarity_score := 2 / 3, tag_similarity := 0,
      rarity_pref := 7 } rfl (by norm_num)
  simpa using h3

/-- A key overwritten in the map branch of `cacheStore` is found with its new
value. -/
theorem lookup_map_store (k : String) (v : List SimilarTagged) :
    ∀ c : SimilarCache, (cacheLookup c k).isSome = true →
    List.lookup k ((c : List (String × List SimilarTagged)).map
      (fun p => if p.1 = k then (k, v) else p)) = some v := by
  intro c
  induction c with
  | nil => intro h; simp [cacheLookup, List.lookup] at h
  | cons p t ih =>
      obtain ⟨pk, pv⟩ := p
      intro h
      by_cases hk : pk = k
      · subst hk
        rw [List.map_cons, if_pos (show (pk, pv).1 = pk from rfl)]
        simp [List.lookup]
      · have hne : (k == pk) = false := by
          simp only [beq_eq_false_iff_ne, ne_eq]
          exact fun heq => hk heq.symm
        have h' : (cacheLookup t k).isSome = true := by
          simpa [cacheLookup, List.lookup, hne] using h
        rw [List.map_cons, if_neg (show ¬ ((pk, pv).1 = k) from hk)]
        simpa [List.lookup, hne] using ih h'

/-- A key appended in the append branch of `cacheStore` is found. -/
theorem lookup_append_store (k : String) (v : List SimilarTagged) :
    ∀ c : SimilarCache, cacheLookup c k = none →
    List.lookup k ((c : List (String × List SimilarTagged)) ++ [(k, v)]) = some v := by
  intro c
  induction c with
  | nil => intro _; simp [List.lookup]
  | cons p t ih =>
      obtain ⟨pk, pv⟩ := p
      intro h
      have hne : (k == pk) = false := by
        by_cases hk : k = pk
        · exfalso
          subst hk
          simp [cacheLookup, List.lookup] at h
        · simp [hk]
      have h' : cacheLookup t k = none := by
        simpa [cacheLookup, List.lookup, hne] using h
      simpa [List.lookup, hne] using ih h'

/-- `cacheStore` establishes the stored binding. -/
theorem cacheLookup_cacheStore_self (c : SimilarCache) (k : String)
    (v : List SimilarTagged) : cacheLookup (cacheStore c k v) k = some v := by
  unfold cacheStore
  by_cases h : (cacheLookup c k).isSome
  · rw [if_pos h]
    exact lookup_map_store k v c h
  · rw [if_neg h]
    exact lookup_append_store k v c (Option.not_isSome_iff_eq_none.mp h)

/-- A cache hit returns the stored list, leaves the cache unchanged, and uses
no network. -/
theorem get_similar_artists_hit (net : String → Nat → NetResult (List SimilarEntry))
    (tagsOf : String → List String) (cache : SimilarCache) (artist_name : String)
    (limit : Nat) (res : List SimilarTagged)
    (h : cacheLookup cache (similar_cache_key artist_name) = some res) :
    get_similar_artists net tagsOf cache artist_name limit =
      Except.ok (res, cache, false) := by
  unfold get_similar_artists
  rw [h]

/-- After any successful `get_similar_artists` call, the returned cache binds
the queried key to the returned list. -/
theorem get_similar_artists_ok_lookup (net : String → Nat → NetResult (List SimilarEntry))
    (tagsOf : String → List String) (cache : SimilarCache) (artist_name : String)
    (limit : Nat) (res : List SimilarTagged) (newCache : SimilarCache) (usedNet : Bool)
    (h : get_similar_artists net tagsOf cache artist_name limit =
      Except.ok (res, newCache, usedNet)) :
    cacheLookup newCache (similar_cache_key artist_name) = some res := by
  unfold get_similar_artists at h
  cases hc : cacheLookup cache (similar_cache_key artist_name) with
  | some cached =>
      rw [hc] at h
      injection h with h
      injection h with h1 h
      injection h with h2 h3
      rw [← h2, ← h1]
      exact hc
  | none =>
      rw [hc] at h
      cases hnet : net artist_name limit with
      | ok entries =>
          rw [hnet] at h
          injection h with h
          injection h with h1 h
          injection h with h2 h3
          rw [← h2, ← h1]
          exact cacheLookup_cacheStore_self cache (similar_cache_key artist_name) _
      | emptyResult =>
          rw [hnet] at h
          injection h with h
          injection h with h1 h
          injection h with h2 h3
          rw [← h2, ← h1]
          exact cacheLookup_cacheStore_self cache (similar_cache_key artist_name) []
      | transportFailure =>
          rw [hnet] at h
          injection h with h
          injection h with h1 h
          injection h with h2 h3
          rw [← h2, ← h1]
          exact cacheLookup_cacheStore_self cache (similar_cache_key artist_name) []
      | malformed =>
          rw [hnet] at h
          cases h

/-- C8: a transport-level failure on a cache miss is non-fatal — the call
returns the empty list (`Except.ok`, not an abort) — and `get_similar_artists`
writes a cache entry for the queried key after every cache miss, including
when the result is empty; consequently any later call for the same key is
served from the cache, with no further network use. -/
theorem c8_transport_failure_cached (net : String → Nat → NetResult (List SimilarEntry))
    (tagsOf : String → List String) (cache : SimilarCache) (artist_name : String)
    (limit : Nat)
    (hmiss : cacheLookup cache (similar_cache_key artist_name) = none) :
    (net artist_name limit = NetResult.transportFailure →
      get_similar_artists net tagsOf cache artist_name limit =
        Except.ok ([], cacheStore cache (similar_cache_key artist_name) [], true)) ∧
    (∀ res newCache usedNet,
      get_similar_artists net tagsOf cache artist_name limit =
        Except.ok (res, newCache, usedNet) →
      cacheLookup newCache (similar_cache_key artist_name) = some res ∧ usedNet = true) ∧
    (∀ res newCache usedNet,
      get_similar_artists net tagsOf cache artist_name limit =
        Except.ok (res, newCache, usedNet) →
      get_similar_artists net tagsOf newCache artist_name limit =
        Except.ok (res, newCache, false)) := by
  refine ⟨?_, ?_, ?_⟩
  · intro hnet
    unfold get_similar_artists
    rw [hmiss, hnet]
  · intro res newCache usedNet h
    refine ⟨get_similar_artists_ok_lookup net tagsOf cache artist_name limit
      res newCache usedNet h, ?_⟩
    unfold get_similar_artists at h
    rw [hmiss] at h
    cases hnet : net artist_name limit <;> rw [hnet] at h
    · injection h with h
      injection h with h1 h
      injection h with h2 h3
      exact h3.symm
    · injection h with h
      injection h with h1 h
      injection h with h2 h3
      exact h3.symm
    · injection h with h
      injection h with h1 h
      injection h with h2 h3
      exact h3.symm
    · cases h
  · intro res newCache usedNet h
    exact get_similar_artists_hit net tagsOf newCache artist_name limit res
      (get_similar_artists_ok_lookup net tagsOf cache artist_name limit
        res newCache usedNet h)

/-- Witness for C8: an empty cache, a network that always times out. -/
theorem c8_transport_failure_cached_witness :
    get_similar_artists (fun _ _ => NetResult.transportFailure) (fun _ => [])
        [] "X" 20 =
      Except.ok ([], cacheStore [] (similar_cache_key "X") [], true) ∧
    get_similar_artists (fun _ _ => NetResult.transportFailure) (fun _ => [])
        (cacheStore [] (similar_cache_key "X") []) "X" 20 =
      Except.ok ([], cacheStore [] (similar_cache_key "X") [], false) := by
  have h := c8_transport_failure_cached (fun _ _ => NetResult.transportFailure)
    (fun _ => []) [] "X" 20 rfl
  have h1 := h.1 rfl
  exact ⟨h1, h.2.2 [] (cacheStore [] (similar_cache_key "X") []) true h1⟩

/-- Appending to a common prefix is injective on strings. -/
theorem string_append_cancel_left (p x y : String) : p ++ x = p ++ y ↔ x = y := by
  constructor
  · intro h
    have hd : (p ++ x).data = (p ++ y).data := by rw [h]
    rw [String.data_append, String.data_append] at hd
    have hxy := List.append_cancel_left hd
    cases x with
    | mk xd =>
        cases y with
        | mk yd => exact congrArg String.mk hxy
  · intro h
    rw [h]

/-- C9 counterexample: the client caches by *lowercased* name, not by
normalised name.  `"Nas\""` and `"Nas"` normalise identically (quote
stripping) but get different cache keys, and after fetching the first, a call
for the second still goes to the network (third component `true`). -/
theorem c9_cache_key_counterexample :
    normalise_artist_name "Nas\"" = normalise_artist_name "Nas" ∧
    similar_cache_key "Nas\"" ≠ similar_cache_key "Nas" ∧
    get_similar_artists (fun _ _ => NetResult.emptyResult) (fun _ => [])
        [] "Nas\"" 20 =
      Except.ok ([], [("similar_nas\"", [])], true) ∧
    get_similar_artists (fun _ _ => NetResult.emptyResult) (fun _ => [])
        [("similar_nas\"", [])] "Nas" 20 =
      Except.ok ([], [("similar_nas\"", []), ("similar_nas", [])], true) := by
  refine ⟨by decide, by decide, rfl, rfl⟩

/-- C9 (amended): every client operation caches by (method prefix,
lowercased artist name): two names share an operation's cache key iff they
are equal after `str.lower()`, and once one of them has been fetched the
other is answered from the cache with no network call.  (Names differing
only by quote style or spacing do *not* share a key.) -/
theorem c9_cache_key_amended :
    (∀ a b : String,
      (similar_cache_key a = similar_cache_key b ↔ pyLower a = pyLower b) ∧
      (tags_cache_key a = tags_cache_key b ↔ pyLower a = pyLower b) ∧
      (info_cache_key a = info_cache_key b ↔ pyLower a = pyLower b)) ∧
    (∀ (net : String → Nat → NetResult (List SimilarEntry))
       (tagsOf : String → List String) (cache : SimilarCache) (a b : String)
       (limit : Nat) (res : List SimilarTagged) (newCache : SimilarCache)
       (usedNet : Bool),
      pyLower a = pyLower b →
      get_similar_artists net tagsOf cache a limit =
        Except.ok (res, newCache, usedNet) →
      get_similar_artists net tagsOf newCache b limit =
        Except.ok (res, newCache, false)) := by
  constructor
  · intro a b
    exact ⟨string_append_cancel_left "similar_" (pyLower a) (pyLower b),
      string_append_cancel_left "tags_" (pyLower a) (pyLower b),
      string_append_cancel_left "info_" (pyLower a) (pyLower b)⟩
  · intro net tagsOf cache a b limit res newCache usedNet hlow hok
    have hkey : similar_cache_key b = similar_cache_key a := by
      unfold similar_cache_key
      rw [hlow]
    have hlk := get_similar_artists_ok_lookup net tagsOf cache a limit
      res newCache usedNet hok
    apply get_similar_artists_hit
    rw [hkey]
    exact hlk

/-- Witness for C9 (amended): `"NAS"` and `"nas"` share a key; the second
call is a cache hit. -/
theorem c9_cache_key_amended_witness :
    (similar_cache_key "NAS" = similar_cache_key "nas" ↔
      pyLower "NAS" = pyLower "nas") ∧
    get_similar_artists (fun _ _ => NetResult.emptyResult) (fun _ => [])
        [("similar_nas", [])] "nas" 20 =
      Except.ok ([], [("similar_nas", [])], false) := by
  refine ⟨(c9_cache_key_amended.1 "NAS" "nas").1, ?_⟩
  exact c9_cache_key_amended.2 (fun _ _ => NetResult.emptyResult) (fun _ => [])
    [("similar_nas", [])] "NAS" "nas" 20 [] [("similar_nas", [])] false
    (by decide) rfl



/-- ASCII lowercasing is idempotent. -/
theorem toLower_toLower (c : Char) : c.toLower.toLower = c.toLower := by
  unfold Char.toLower
  by_cases h : c.toNat ≥ 65 ∧ c.toNat ≤ 90
  · rw [if_pos h]
    have hv : (c.toNat + 32).isValidChar := by
      left
      omega
    have htn : (Char.ofNat (c.toNat + 32)).toNat = c.toNat + 32 := by
      rw [Char.ofNat, dif_pos hv]
      rfl
    rw [if_neg]
    rw [htn]
    omega
  · rw [if_neg h, if_neg h]

/-- A whitespace-leading character does not change `wordsOf`. -/
theorem wordsOf_ws_cons {d : Char} (t : List Char) (hd : isWsChar d = true) :
    wordsOf (d :: t) = wordsOf t := by
  cases t with
  | nil => simp [wordsOf, hd]
  | cons e r => simp [wordsOf, hd]

/-- `wordsOf` of a string with a non-whitespace head is nonempty. -/
theorem wordsOf_ne_nil {e : Char} (t : List Char) (he : isWsChar e = false) :
    wordsOf (e :: t) ≠ [] := by
  cases t with
  | nil => simp [wordsOf, he]
  | cons f r =>
      simp only [wordsOf, he]
      by_cases hf : isWsChar f
      · simp [hf]
      · simp only [hf]
        cases wordsOf (f :: r) <;> simp

/-- Characters of words are characters of the source and not whitespace. -/
theorem wordsOf_mem : ∀ (s : List Char) (w : List Char), w ∈ wordsOf s →
    ∀ c ∈ w, c ∈ s ∧ isWsChar c = false := by
  intro s
  induction s with
  | nil => intro w hw; simp [wordsOf] at hw
  | cons a t ih =>
      intro w hw c hc
      cases t with
      | nil =>
          by_cases ha : isWsChar a
          · simp [wordsOf, ha] at hw
          · simp [wordsOf, ha] at hw
            subst hw
            simp at hc
            subst hc
            exact ⟨List.mem_cons_self _ _, by simpa using ha⟩
      | cons d r =>
          by_cases ha : isWsChar a
          · rw [wordsOf_ws_cons _ ha] at hw
            have := ih w hw c hc
            exact ⟨List.mem_cons_of_mem a this.1, this.2⟩
          · simp only [wordsOf, ha] at hw
            by_cases hd : isWsChar d
            · simp only [hd, if_true, if_false, Bool.false_eq_true] at hw
              rcases List.mem_cons.mp hw with h1 | h2
              · subst h1
                simp at hc
                subst hc
                exact ⟨List.mem_cons_self _ _, by simpa using ha⟩
              · have := ih w h2 c hc
                exact ⟨List.mem_cons_of_mem a this.1, this.2⟩
            · simp only [hd, if_false, Bool.false_eq_true] at hw
              cases hwords : wordsOf (d :: r) with
              | nil =>
                  rw [hwords] at hw
                  simp at hw
                  subst hw
                  simp at hc
                  subst hc
                  exact ⟨List.mem_cons_self _ _, by simpa using ha⟩
              | cons w0 ws0 =>
                  rw [hwords] at hw
                  rcases List.mem_cons.mp hw with h1 | h2
                  · subst h1
                    rcases List.mem_cons.mp hc with hc1 | hc2
                    · subst hc1
                      exact ⟨List.mem_cons_self _ _, by simpa using ha⟩
                    · have := ih w0 (by rw [hwords]; exact List.mem_cons_self w0 ws0) c hc2
                      exact ⟨List.mem_cons_of_mem a this.1, this.2⟩
                  · have := ih w (by rw [hwords]; exact List.mem_cons_of_mem w0 h2) c hc
                    exact ⟨List.mem_cons_of_mem a this.1, this.2⟩

/-- Words are nonempty. -/
theorem wordsOf_ne_nil_mem : ∀ (s : List Char) (w : List Char), w ∈ wordsOf s → w ≠ [] := by
  intro s
  induction s with
  | nil => intro w hw; simp [wordsOf] at hw
  | cons a t ih =>
      intro w hw
      cases t with
      | nil =>
          by_cases ha : isWsChar a
          · simp [wordsOf, ha] at hw
          · simp [wordsOf, ha] at hw
            subst hw
            simp
      | cons d r =>
          by_cases ha : isWsChar a
          · rw [wordsOf_ws_cons _ ha] at hw
            exact ih w hw
          · simp only [wordsOf, ha] at hw
            by_cases hd : isWsChar d
            · simp only [hd, if_true, if_false, Bool.false_eq_true] at hw
              rcases List.mem_cons.mp hw with h1 | h2
              · subst h1; simp
              · exact ih w h2
            · simp only [hd, if_false, Bool.false_eq_true] at hw
              cases hwords : wordsOf (d :: r) with
              | nil =>
                  rw [hwords] at hw
                  simp at hw
                  subst hw
                  simp
              | cons w0 ws0 =>
                  rw [hwords] at hw
                  rcases List.mem_cons.mp hw with h1 | h2
                  · subst h1; simp
                  · exact ih w (by rw [hwords]; exact List.mem_cons_of_mem w0 h2)

/-- `isWsChar`-free characters are not spaces. -/
theorem ne_space_of_not_ws {c : Char} (h : isWsChar c = false) : c ≠ ' ' := by
  intro hc
  subst hc
  simp [isWsChar] at h

/-- Prepending a character to the first word passes through `joinWords`. -/
theorem joinWords_cons_head (c : Char) (w : List Char) (ws : List (List Char)) :
    joinWords ((c :: w) :: ws) = c :: joinWords (w :: ws) := by
  cases ws with
  | nil => simp [joinWords]
  | cons x xs => simp [joinWords]

/-- Every character of a join is a character of a word or the space. -/
theorem joinWords_mem : ∀ (ws : List (List Char)) (c : Char), c ∈ joinWords ws →
    (∃ w ∈ ws, c ∈ w) ∨ c = ' ' := by
  intro ws
  induction ws with
  | nil => intro c hc; simp [joinWords] at hc
  | cons w rest ih =>
      intro c hc
      cases rest with
      | nil =>
          simp only [joinWords] at hc
          exact Or.inl ⟨w, List.mem_cons_self w [], hc⟩
      | cons x xs =>
          simp only [joinWords, List.append_assoc, List.mem_append, List.mem_cons] at hc
          rcases hc with hw | hsp | hrest
          · exact Or.inl ⟨w, List.mem_cons_self w _, hw⟩
          · exact Or.inr (by simpa using hsp)
          · rcases ih c hrest with ⟨w', hw', hc'⟩ | hsp
            · exact Or.inl ⟨w', List.mem_cons_of_mem w hw', hc'⟩
            · exact Or.inr hsp

/-- The first character of a join of words is the first character of the
first word. -/
theorem joinWords_head? (w : List Char) (ws : List (List Char)) (hw : w ≠ []) :
    (joinWords (w :: ws)).head? = w.head? := by
  cases ws with
  | nil => simp [joinWords]
  | cons x xs =>
      simp only [joinWords, List.append_assoc]
      rw [List.head?_append]
      cases w with
      | nil => exact absurd rfl hw
      | cons c t => simp

/-- A whitespace-free list has no two adjacent spaces. -/
theorem chain'_of_no_ws (w : List Char) (h : ∀ c ∈ w, isWsChar c = false) :
    List.Chain' (fun x y => ¬(x = ' ' ∧ y = ' ')) w := by
  induction w with
  | nil => simp
  | cons x t ih =>
      cases t with
      | nil => simp
      | cons y u =>
          rw [List.chain'_cons]
          constructor
          · intro hxy
            exact ne_space_of_not_ws (h x (List.mem_cons_self x _)) hxy.1
          · exact ih (fun c hc => h c (List.mem_cons_of_mem x hc))

/-- A join of nonempty whitespace-free words has no two adjacent spaces. -/
theorem joinWords_chain' : ∀ ws : List (List Char),
    (∀ w ∈ ws, w ≠ [] ∧ ∀ c ∈ w, isWsChar c = false) →
    List.Chain' (fun x y => ¬(x = ' ' ∧ y = ' ')) (joinWords ws) := by
  intro ws
  induction ws with
  | nil => intro _; simp [joinWords]
  | cons w rest ih =>
      intro h
      have hw := h w (List.mem_cons_self w _)
      cases rest with
      | nil =>
          simp only [joinWords]
          exact chain'_of_no_ws w hw.2
      | cons x xs =>
          have hrest : ∀ v ∈ x :: xs, v ≠ [] ∧ ∀ c ∈ v, isWsChar c = false :=
            fun v hv => h v (List.mem_cons_of_mem w hv)
          have hx := hrest x (List.mem_cons_self x _)
          simp only [joinWords]
          rw [List.chain'_append]
          refine ⟨?_, ?_, ?_⟩
          · rw [List.chain'_append]
            refine ⟨chain'_of_no_ws w hw.2, by simp, ?_⟩
            intro a ha b hb
            simp only [List.head?_cons, Option.mem_def, Option.some.injEq] at hb
            subst hb
            intro hab
            have := List.mem_of_mem_getLast? ha
            exact ne_space_of_not_ws (hw.2 a this) hab.1
          · exact ih hrest
          · intro a ha b hb
            rw [joinWords_head? x xs hx.1] at hb
            intro hab
            have hbm : b ∈ x := List.mem_of_mem_head? hb
            exact ne_space_of_not_ws (hx.2 b hbm) hab.2

/-- `trimR` on `cons`. -/
theorem trimR_cons (x : Char) (xs : List Char) :
    trimR (x :: xs) = if (trimR xs).isEmpty then (if isWsChar x then [] else [x])
                      else x :: trimR xs := by
  unfold trimR
  rw [List.reverse_cons, List.dropWhile_append]
  have hemp : (xs.reverse.dropWhile isWsChar).isEmpty =
      ((xs.reverse.dropWhile isWsChar).reverse).isEmpty := by
    rcases h : xs.reverse.dropWhile isWsChar with _ | ⟨c, t⟩ <;> simp
  by_cases h : (xs.reverse.dropWhile isWsChar).isEmpty
  · rw [if_pos h, if_pos (by rw [← hemp]; exact h)]
    by_cases hx : isWsChar x
    · simp [List.dropWhile, hx]
    · simp [List.dropWhile, hx]
  · rw [if_neg h, if_neg (by rw [← hemp]; exact h)]
    rw [List.reverse_append]
    simp

/-- `trimR` is empty exactly on all-whitespace strings. -/
theorem trimR_eq_nil_iff (s : List Char) :
    trimR s = [] ↔ ∀ c ∈ s, isWsChar c = true := by
  unfold trimR
  rw [List.reverse_eq_nil_iff, List.dropWhile_eq_nil_iff]
  constructor
  · intro h c hc
    exact h c (List.mem_reverse.mpr hc)
  · intro h c hc
    exact h c (List.mem_reverse.mp hc)

/-- `trimR` of a list with non-whitespace head is nonempty. -/
theorem trimR_ne_nil {e : Char} (t : List Char) (he : isWsChar e = false) :
    trimR (e :: t) ≠ [] := by
  rw [trimR_cons]
  by_cases h : (trimR t).isEmpty
  · rw [if_pos h, if_neg (by simp [he])]
    simp
  · rw [if_neg h]
    simp

/-- On strings whose whitespace is single spaces only, splitting into words
and re-joining with single spaces is exactly `str.strip()`. -/
theorem joinWords_wordsOf_eq_trimL : ∀ p : List Char,
    (∀ c ∈ p, isWsChar c = true → c = ' ') →
    List.Chain' (fun x y => ¬(x = ' ' ∧ y = ' ')) p →
    joinWords (wordsOf p) = trimL p := by
  intro p
  induction p with
  | nil => intro _ _; rfl
  | cons c rest ih =>
      intro hsp hch
      have hsp' : ∀ x ∈ rest, isWsChar x = true → x = ' ' :=
        fun x hx => hsp x (List.mem_cons_of_mem c hx)
      have hch' : List.Chain' (fun x y => ¬(x = ' ' ∧ y = ' ')) rest := hch.tail
      by_cases hc : isWsChar c
      · rw [wordsOf_ws_cons rest hc, ih hsp' hch']
        unfold trimL
        rw [show List.dropWhile isWsChar (c :: rest) = List.dropWhile isWsChar rest from
          by simp [List.dropWhile, hc]]
      · have hcf : isWsChar c = false := by simpa using hc
        have htl : trimL (c :: rest) = trimR (c :: rest) := by
          unfold trimL
          rw [show List.dropWhile isWsChar (c :: rest) = c :: rest from
            by simp [List.dropWhile, hc]]
        rw [htl]
        cases rest with
        | nil =>
            rw [show wordsOf [c] = [[c]] from by simp [wordsOf, hcf]]
            rw [show joinWords [[c]] = [c] from rfl]
            rw [trimR_cons]
            simp [hcf, trimR]
        | cons d rtail =>
            by_cases hd : isWsChar d
            · have hdeq : d = ' ' :=
                hsp d (List.mem_cons_of_mem _ (List.mem_cons_self _ _)) hd
              rw [show wordsOf (c :: d :: rtail) = [c] :: wordsOf (d :: rtail) from
                by simp [wordsOf, hcf, hd]]
              cases rtail with
              | nil =>
                  rw [wordsOf_ws_cons [] hd]
                  rw [show wordsOf ([] : List Char) = [] from rfl]
                  rw [show joinWords [[c]] = [c] from rfl]
                  rw [trimR_cons]
                  have hnil : trimR [d] = [] := by
                    rw [trimR_eq_nil_iff]
                    intro x hx
                    simp at hx
                    subst hx
                    exact hd
                  rw [hnil]
                  simp [hcf]
              | cons e r2 =>
                  have he : isWsChar e = false := by
                    by_cases he' : isWsChar e
                    · exfalso
                      have heeq : e = ' ' := hsp' e (by simp) he'
                      have hRde := (List.chain'_cons.mp ((List.chain'_cons.mp hch).2)).1
                      exact hRde ⟨hdeq, heeq⟩
                    · simpa using he'
                  rw [wordsOf_ws_cons (e :: r2) hd]
                  obtain ⟨w0, ws0, hw0⟩ : ∃ w0 ws0, wordsOf (e :: r2) = w0 :: ws0 := by
                    cases hx : wordsOf (e :: r2) with
                    | nil => exact absurd hx (wordsOf_ne_nil r2 he)
                    | cons a b => exact ⟨a, b, rfl⟩
                  rw [hw0]
                  rw [show joinWords ([c] :: w0 :: ws0) =
                    [c] ++ [' '] ++ joinWords (w0 :: ws0) from rfl]
                  have hih := ih hsp' hch'
                  rw [wordsOf_ws_cons (e :: r2) hd, hw0] at hih
                  have htl2 : trimL (d :: e :: r2) = trimR (e :: r2) := by
                    unfold trimL
                    rw [show List.dropWhile isWsChar (d :: e :: r2) =
                          List.dropWhile isWsChar (e :: r2) from by simp [List.dropWhile, hd],
                        show List.dropWhile isWsChar (e :: r2) = e :: r2 from
                          by simp [List.dropWhile, he]]
                  rw [htl2] at hih
                  rw [hih]
                  subst hdeq
                  conv_rhs => rw [trimR_cons]
                  have h1 : trimR (' ' :: e :: r2) = ' ' :: trimR (e :: r2) := by
                    rw [trimR_cons]
                    rw [if_neg (by simpa [List.isEmpty_iff] using trimR_ne_nil r2 he)]
                  rw [h1]
                  rw [if_neg (by simp)]
                  simp
            · have hdf : isWsChar d = false := by simpa using hd
              obtain ⟨w0, ws0, hw0⟩ : ∃ w0 ws0, wordsOf (d :: rtail) = w0 :: ws0 := by
                cases hx : wordsOf (d :: rtail) with
                | nil => exact absurd hx (wordsOf_ne_nil rtail hdf)
                | cons a b => exact ⟨a, b, rfl⟩
              rw [show wordsOf (c :: d :: rtail) = (c :: w0) :: ws0 from
                by simp [wordsOf, hcf, hdf, hw0]]
              rw [joinWords_cons_head]
              have hih := ih hsp' hch'
              rw [hw0] at hih
              have htl2 : trimL (d :: rtail) = trimR (d :: rtail) := by
                unfold trimL
                rw [show List.dropWhile isWsChar (d :: rtail) = d :: rtail from
                  by simp [List.dropWhile, hd]]
              rw [htl2] at hih
              rw [hih]
              conv_rhs => rw [trimR_cons]
              rw [if_neg (by simpa [List.isEmpty_iff] using trimR_ne_nil rtail hdf)]

/-- `splitOnSepFuel` never returns the empty list. -/
theorem splitOnSepFuel_ne_nil (sep : List Char) :
    ∀ (fuel : Nat) (s : List Char), splitOnSepFuel sep fuel s ≠ [] := by
  intro fuel s
  match fuel, s with
  | _, [] => simp [splitOnSepFuel]
  | 0, c :: rest => simp [splitOnSepFuel]
  | fuel + 1, c :: rest =>
      by_cases h : sep ≠ [] ∧ isPrefixOfL sep (c :: rest) = true
      · simp [splitOnSepFuel, h]
      · simp only [splitOnSepFuel, if_neg h]
        cases splitOnSepFuel sep fuel rest <;> simp

/-- Decomposition of a split: the first fragment is a prefix of the source
and every other fragment is a contiguous substring. -/
theorem splitOnSepFuel_decomp (sep : List Char) :
    ∀ (fuel : Nat) (s q : List Char) (qs : List (List Char)),
    splitOnSepFuel sep fuel s = q :: qs →
    (∃ b, s = q ++ b) ∧ (∀ p ∈ qs, ∃ a b, s = a ++ p ++ b) := by
  intro fuel
  induction fuel with
  | zero =>
      intro s q qs h
      cases s with
      | nil =>
          simp only [splitOnSepFuel] at h
          injection h with h1 h2
          subst h1
          subst h2
          exact ⟨⟨[], rfl⟩, by simp⟩
      | cons c rest =>
          simp only [splitOnSepFuel] at h
          injection h with h1 h2
          subst h1
          subst h2
          exact ⟨⟨[], by simp⟩, by simp⟩
  | succ fuel ih =>
      intro s q qs h
      cases s with
      | nil =>
          simp only [splitOnSepFuel] at h
          injection h with h1 h2
          subst h1
          subst h2
          exact ⟨⟨[], rfl⟩, by simp⟩
      | cons c rest =>
          by_cases hp : sep ≠ [] ∧ isPrefixOfL sep (c :: rest) = true
          · simp only [splitOnSepFuel, if_pos hp] at h
            injection h with h1 h2
            subst h1
            refine ⟨⟨c :: rest, rfl⟩, ?_⟩
            intro p hpmem
            rw [← h2] at hpmem
            have hmem2 : ∀ p' ∈ splitOnSepFuel sep fuel ((c :: rest).drop sep.length),
                ∃ a b, (c :: rest).drop sep.length = a ++ p' ++ b := by
              intro p' hp'
              cases hsp : splitOnSepFuel sep fuel ((c :: rest).drop sep.length) with
              | nil => exact absurd hsp (splitOnSepFuel_ne_nil sep fuel _)
              | cons q' qs' =>
                  rw [hsp] at hp'
                  rcases List.mem_cons.mp hp' with h1 | h2
                  · obtain ⟨b, hb⟩ := (ih _ q' qs' hsp).1
                    exact ⟨[], b, by rw [h1]; simpa using hb⟩
                  · exact (ih _ q' qs' hsp).2 p' h2
            obtain ⟨a, b, hab⟩ := hmem2 p hpmem
            refine ⟨(c :: rest).take sep.length ++ a, b, ?_⟩
            conv_lhs => rw [← List.take_append_drop sep.length (c :: rest)]
            rw [hab]
            simp [List.append_assoc]
          · simp only [splitOnSepFuel, if_neg hp] at h
            cases hsp : splitOnSepFuel sep fuel rest with
            | nil => exact absurd hsp (splitOnSepFuel_ne_nil sep fuel rest)
            | cons q' qs' =>
                rw [hsp] at h
                injection h with h1 h2
                subst h1
                subst h2
                obtain ⟨b, hb⟩ := (ih rest q' qs' hsp).1
                refine ⟨⟨b, by rw [hb]; simp⟩, ?_⟩
                intro p hpmem
                obtain ⟨a, b', hab⟩ := (ih rest q' qs' hsp).2 p hpmem
                exact ⟨c :: a, b', by rw [hab]; simp⟩

/-- Every fragment of `splitOnSep` is a contiguous substring of the source. -/
theorem splitOnSep_substring (sep s p : List Char) (hp : p ∈ splitOnSep sep s) :
    ∃ a b, s = a ++ p ++ b := by
  unfold splitOnSep at hp
  cases hsp : splitOnSepFuel sep s.length s with
  | nil => exact absurd hsp (splitOnSepFuel_ne_nil sep s.length s)
  | cons q qs =>
      rw [hsp] at hp
      rcases List.mem_cons.mp hp with h1 | h2
      · obtain ⟨b, hb⟩ := (splitOnSepFuel_decomp sep s.length s q qs hsp).1
        exact ⟨[], b, by rw [h1]; simpa using hb⟩
      · exact (splitOnSepFuel_decomp sep s.length s q qs hsp).2 p h2

/-- Every part produced by `splitParts` is a contiguous substring of the
initial string. -/
theorem splitParts_substring (seps : List (List Char)) (init p : List Char)
    (hp : p ∈ splitParts seps init) : ∃ a b, init = a ++ p ++ b := by
  unfold splitParts at hp
  have main : ∀ (seps' : List (List Char)) (parts : List (List Char)),
      (∀ q ∈ parts, ∃ a b, init = a ++ q ++ b) →
      ∀ p' ∈ seps'.foldl (fun parts sep => parts.flatMap (splitOnSep sep)) parts,
      ∃ a b, init = a ++ p' ++ b := by
    intro seps'
    induction seps' with
    | nil => intro parts hparts p' hp'; exact hparts p' hp'
    | cons sep rest ih =>
        intro parts hparts p' hp'
        simp only [List.foldl_cons] at hp'
        refine ih (parts.flatMap (splitOnSep sep)) ?_ p' hp'
        intro q hq
        obtain ⟨q0, hq0, hqin⟩ := List.mem_flatMap.mp hq
        obtain ⟨a, b, hab⟩ := hparts q0 hq0
        obtain ⟨a', b', hab'⟩ := splitOnSep_substring sep q0 q hqin
        refine ⟨a ++ a', b' ++ b, ?_⟩
        rw [hab, hab']
        simp [List.append_assoc]
  exact main seps [init] (fun q hq => by
    simp at hq
    subst hq
    exact ⟨[], [], by simp⟩) p hp

/-- The output of `_normalise_artist_name` is clean. -/
theorem clean_normaliseL (s : List Char) : Clean (normaliseL s) := by
  constructor
  · intro c hc
    unfold normaliseL at hc
    rcases joinWords_mem _ c hc with ⟨w, hw, hcw⟩ | hsp
    · have hmem := wordsOf_mem _ w hw c hcw
      have hq : c ∈ stripQuotes (lowerChars s) := hmem.1
      have hnoq : isQuoteChar c = false := by
        have := (List.mem_filter.mp hq).2
        simpa using this
      have hlow : c.toLower = c := by
        have hcl : c ∈ lowerChars s := List.mem_of_mem_filter hq
        obtain ⟨d, _, hd⟩ := List.mem_map.mp hcl
        rw [← hd]
        exact toLower_toLower d
      exact ⟨hnoq, hlow, fun hws => absurd hws (by simp [hmem.2])⟩
    · subst hsp
      refine ⟨by decide, by decide, fun _ => rfl⟩
  · unfold normaliseL
    apply joinWords_chain'
    intro w hw
    exact ⟨wordsOf_ne_nil_mem _ w hw, fun c hc => (wordsOf_mem _ w hw c hc).2⟩

/-- Cleanness passes to contiguous substrings. -/
theorem clean_substring {s p a b : List Char} (hs : Clean s) (hab : s = a ++ p ++ b) :
    Clean p := by
  constructor
  · intro c hc
    apply hs.1
    rw [hab]
    simp [hc]
  · have hch := hs.2
    rw [hab, List.append_assoc] at hch
    exact (List.chain'_append.mp ((List.chain'_append.mp hch).2.1)).1

/-- On clean strings, `_normalise_artist_name` is Python `str.strip()`. -/
theorem normaliseL_eq_trimL_of_clean (p : List Char) (h : Clean p) :
    normaliseL p = trimL p := by
  unfold normaliseL
  have hlow : lowerChars p = p := by
    unfold lowerChars
    rw [List.map_congr_left (fun c hc => (h.1 c hc).2.1)]
    exact List.map_id p
  rw [hlow]
  have hq : stripQuotes p = p := by
    unfold stripQuotes
    rw [List.filter_eq_self]
    intro c hc
    simp [(h.1 c hc).1]
  rw [hq]
  exact joinWords_wordsOf_eq_trimL p (fun c hc hws => (h.1 c hc).2.2 hws) h.2

/-- `_contains_known_artist` fires exactly on a fragment that is nonempty
after stripping and whose normalisation is a known artist. -/
theorem contains_known_artist_iff (known : List String) (name : String) :
    contains_known_artist known name = true ↔
    ∃ p ∈ splitParts collaborationSeparators (normaliseL name.data),
      trimL p ≠ [] ∧ (⟨normaliseL p⟩ : String) ∈ known := by
  have hclean : ∀ p ∈ splitParts collaborationSeparators (normaliseL name.data),
      normaliseL p = trimL p := by
    intro p hp
    obtain ⟨a, b, hab⟩ := splitParts_substring collaborationSeparators _ p hp
    exact normaliseL_eq_trimL_of_clean p (clean_substring (clean_normaliseL name.data) hab)
  simp only [contains_known_artist]
  rw [List.any_eq_true]
  constructor
  · rintro ⟨q, hq, hcont⟩
    rw [List.mem_filter] at hq
    obtain ⟨hq1, hq2⟩ := hq
    obtain ⟨p, hp, hpq⟩ := List.mem_map.mp hq1
    refine ⟨p, hp, ?_, ?_⟩
    · rw [hpq]
      simpa using hq2
    · rw [hclean p hp, hpq]
      exact List.elem_iff.mp hcont
  · rintro ⟨p, hp, hne, hmem⟩
    refine ⟨trimL p, ?_, ?_⟩
    · rw [List.mem_filter]
      refine ⟨List.mem_map.mpr ⟨p, hp, rfl⟩, by simpa using hne⟩
    · rw [← hclean p hp]
      exact List.elem_iff.mpr hmem

/-- C6 counterexample: with a library artist named `"'"` (whose name
normalises to the empty string) meeting the known thresholds, the known set
is `{""}`; the candidate `", Nas"` then has a fragment (`""`) that normalises
into the known set — the claim says `containsKnownArtist` returns true — yet
the code returns false, because empty fragments are discarded before the
membership test. -/
theorem c6_contains_known_counterexample :
    known_artists defaultConfig
        [("'", { play_count := 100, track_count := 10, loved := false,
                 disliked := false, loved_track_count := 0,
                 disliked_track_count := 0, rating := 0,
                 last_played := none })] = [""] ∧
    contains_known_artist [""] ", Nas" = false ∧
    fragmentNormalisesIntoKnown [""] ", Nas" := by
  refine ⟨by decide, by decide, ?_⟩
  refine ⟨[], by decide, by decide⟩

/-- C6 (amended): `containsKnownArtist(candidateName)` returns true iff some
fragment obtained by splitting the normalised candidate name on the
collaboration separators is nonempty after stripping and normalises to a
member of the known set; in particular, with "nas" in the known set, the
candidate "Nas & Damian Marley" fires the helper and is excluded by the
aggregation filter. -/
theorem c6_contains_known_artist_amended :
    (∀ (known : List String) (name : String),
      contains_known_artist known name = true ↔
      ∃ p ∈ splitParts collaborationSeparators (normaliseL name.data),
        trimL p ≠ [] ∧ (⟨normaliseL p⟩ : String) ∈ known) ∧
    (∀ (cfg : BFConfig) (known disliked : List String) (lib : Library),
      ("nas" : String) ∈ known →
      contains_known_artist known "Nas & Damian Marley" = true ∧
      candidateSkipped cfg known disliked lib "Nas & Damian Marley" = true) := by
  constructor
  · exact contains_known_artist_iff
  · intro cfg known disliked lib hnas
    have hc : contains_known_artist known "Nas & Damian Marley" = true := by
      rw [contains_known_artist_iff]
      refine ⟨"nas".data, ?_, ?_, ?_⟩
      · decide
      · decide
      · show (⟨normaliseL "nas".data⟩ : String) ∈ known
        have : (⟨normaliseL "nas".data⟩ : String) = "nas" := by decide
        rw [this]
        exact hnas
    refine ⟨hc, ?_⟩
    simp [candidateSkipped, hc]

/-- Witness for C6 (amended) with concrete known set `["nas"]`. -/
theorem c6_contains_known_artist_amended_witness :
    (contains_known_artist ["nas"] "Nas & Damian Marley" = true ↔
      ∃ p ∈ splitParts collaborationSeparators
          (normaliseL "Nas & Damian Marley".data),
        trimL p ≠ [] ∧ (⟨normaliseL p⟩ : String) ∈ ["nas"]) ∧
    contains_known_artist ["nas"] "Nas & Damian Marley" = true ∧
    candidateSkipped defaultConfig ["nas"] [] [] "Nas & Damian Marley" = true := by
  have h := c6_contains_known_artist_amended
  have h2 := h.2 defaultConfig ["nas"] [] [] (by decide)
  exact ⟨h.1 ["nas"] "Nas & Damian Marley", h2.1, h2.2⟩

end Beatfinder
